import Mathlib

/-!
Shallow embedding of the KarthikNayak/NeuralNetwork repository (network.go).

Matrices of the Go code (gonum mat64.Dense) are embedded as row-major
List (List Real); row vectors (1 x n matrices) as List Real.  Go float64
arithmetic is idealised as real arithmetic.  Each definition mirrors one
function of network.go; line numbers in the comments refer to that file.

Where the Go code relies on gonum mat64 semantics, those semantics are made
explicit here:
  - Dense.Clone produces an independent copy;
  - Dense.Reset keeps the backing array; a subsequent MulElem on the reset
    receiver writes into that backing array when the needed length fits its
    capacity, and allocates a fresh one otherwise (this matters for the
    backward loop of backpropQuadCost, where nablaB[i] = delta stores a view
    of delta's backing array that later iterations may overwrite);
  - dimension-mismatched mat64 operations panic in Go; on those inputs the
    embedding's zipWith-based operations truncate instead, and every claim
    is stated on well-formed inputs where no mismatch occurs.
-/

namespace NeuralNet

/-- sigmoid, network.go lines 277-279: 1 / (1 + exp(-z)). -/
noncomputable def sigmoid (z : ℝ) : ℝ := 1 / (1 + Real.exp (-z))

/-- sigmoidPrimeMatrix, network.go lines 272-274: sigmoid(v) * (1 - sigmoid(v)). -/
noncomputable def sigmoidPrime (z : ℝ) : ℝ := sigmoid z * (1 - sigmoid z)

/-- Elementwise sum of two row vectors (mat64 Add on 1 x n matrices). -/
def vecAdd (a b : List ℝ) : List ℝ := List.zipWith (· + ·) a b

/-- Elementwise difference of two row vectors (mat64 Sub on 1 x n matrices). -/
def vecSub (a b : List ℝ) : List ℝ := List.zipWith (· - ·) a b

/-- Elementwise product of two row vectors (mat64 MulElem on 1 x n matrices). -/
def vecHad (a b : List ℝ) : List ℝ := List.zipWith (· * ·) a b

/-- Row vector times matrix (mat64 Mul with a 1 x n first argument):
entry c of the result is the sum over i of v[i] * W[i][c].  The width of the
result is the column count of W, read off the first row as mat64 stores it. -/
def rowMul (v : List ℝ) (W : List (List ℝ)) : List ℝ :=
  (List.range (W.headD []).length).map fun c =>
    ((List.zip v W).map fun p => p.1 * p.2.getD c 0).sum

/-- Row vector times the transpose of a matrix (mat64 Mul against W.T()):
entry r of the result is the sum over c of v[c] * W[r][c]. -/
def rowMulT (v : List ℝ) (W : List (List ℝ)) : List ℝ :=
  W.map fun row => ((List.zip v row).map fun p => p.1 * p.2).sum

/-- Column vector (the transpose of row vector a) times row vector d
(mat64 Mul of a.T() against d): the (i, k) entry is a[i] * d[k]. -/
def outerMul (a d : List ℝ) : List (List ℝ) := a.map fun ai => d.map fun dk => ai * dk

/-- Elementwise sum of two matrices (mat64 Add). -/
def matAdd (A B : List (List ℝ)) : List (List ℝ) := List.zipWith vecAdd A B

/-- quadraticCost, network.go lines 195-199: the elementwise difference
output - desiredOutput (the derivative of the quadratic cost, not the scalar
cost value). -/
def quadraticCost (output desiredOutput : List ℝ) : List ℝ := vecSub output desiredOutput

/-- Network, network.go lines 15-21.  Sizes is stored by the Go code as a
1 x NumLayers matrix of float64 holding the layer widths; it is embedded as
the list of widths.  The TestFunc field is only used for accuracy reporting
and carries no weight in any claim, so it is omitted. -/
structure Network where
  numLayers : ℕ
  sizes : List ℕ
  weights : List (List (List ℝ))
  biases : List (List ℝ)

/-- Layer construction loop of Init, network.go lines 46-60, one recursion
step per adjacent pair (size[i], size[i+1]).  The Go code draws every entry
from the process-wide generator rand.NormFloat64(); the embedding threads the
stream g of drawn values with an explicit counter, consuming values in the
same order as the Go loops: for each layer, first the weight matrix row by
row, then the bias vector. -/
def initLayersAux (g : ℕ → ℝ) : List (ℕ × ℕ) → ℕ → List (List (List ℝ)) × List (List ℝ)
  | [], _ => ([], [])
  | (r, c) :: rest, ctr =>
    let W := (List.range r).map fun j => (List.range c).map fun k => g (ctr + j * c + k)
    let b := (List.range c).map fun k => g (ctr + r * c + k)
    let p := initLayersAux g rest (ctr + r * c + c)
    (W :: p.1, b :: p.2)

/-- Init, network.go lines 33-64.  Fails (log.Fatal, modelled as none) when
fewer than two layer sizes are given; otherwise builds NumLayers-1 weight
matrices of shape (size[i], size[i+1]) and bias vectors of shape
(1, size[i+1]) filled from the random stream g. -/
def init (size : List ℕ) (g : ℕ → ℝ) : Option Network :=
  if size.length < 2 then none
  else
    let p := initLayersAux g (size.zip size.tail) 0
    some ⟨size.length, size, p.1, p.2⟩

/-- FeedForward, network.go lines 112-124: starting from the input, for each
layer i multiply by Weights[i], add Biases[i] and apply sigmoid elementwise. -/
noncomputable def feedForward (n : Network) (input : List ℝ) : List ℝ :=
  (List.range (n.numLayers - 1)).foldl
    (fun a i => (vecAdd (rowMul a (n.weights.getD i [])) (n.biases.getD i [])).map sigmoid)
    input

/-- Forward pass of backpropQuadCost, network.go lines 214-226, retaining all
activations (activations[0] is a clone of the input) and all pre-activations
zs, run for the first m layers. -/
noncomputable def forwardTraceN (n : Network) (x : List ℝ) (m : ℕ) :
    List (List ℝ) × List (List ℝ) :=
  (List.range m).foldl
    (fun st i =>
      let z := vecAdd (rowMul (st.1.getLastD []) (n.weights.getD i [])) (n.biases.getD i [])
      (st.1 ++ [z.map sigmoid], st.2 ++ [z]))
    ([x], [])

/-- Forward pass of backpropQuadCost over all NumLayers - 1 layers. -/
noncomputable def forwardTrace (n : Network) (x : List ℝ) : List (List ℝ) × List (List ℝ) :=
  forwardTraceN n x (n.numLayers - 1)

/-- Activation of layer k as the spec describes it: activation 0 is the
input, activation (k+1) is sigmoid applied elementwise to
activation k x W[k] + B[k]. -/
noncomputable def actAt (n : Network) (x : List ℝ) : ℕ → List ℝ
  | 0 => x
  | k + 1 => (vecAdd (rowMul (actAt n x k) (n.weights.getD k [])) (n.biases.getD k [])).map sigmoid

/-- Pre-activation of layer k+1 as the spec describes it:
activation k x W[k] + B[k]. -/
noncomputable def zAt (n : Network) (x : List ℝ) (k : ℕ) : List ℝ :=
  vecAdd (rowMul (actAt n x k) (n.weights.getD k [])) (n.biases.getD k [])

/-- Output-layer error of backpropQuadCost, network.go lines 242-244:
(activations[L-1] - desired) hadamard sigmoidPrime(zs[L-2]). -/
noncomputable def outputDelta (n : Network) (x y : List ℝ) : List ℝ :=
  vecHad (quadraticCost (actAt n x (n.numLayers - 1)) y)
    ((zAt n x (n.numLayers - 2)).map sigmoidPrime)

/-- State of the mat64 backing array behind the delta variable in the
backward loop of backpropQuadCost.  finished holds backing arrays that were
abandoned when a larger delta forced a fresh allocation (oldest first); cur
is the backing array currently written through delta (its length is its
capacity, as Go's make allocates exactly the requested length). -/
structure DeltaBuf where
  finished : List (List ℝ)
  cur : List ℝ

/-- Effect of delta.Reset() followed by delta.MulElem(...) producing the
values d (network.go lines 255-256): mat64 reuses the reset backing array
when d fits its capacity (overwriting its first d.length entries, which
clobbers every earlier nablaB[i] = delta view of this array), and allocates
a fresh backing array otherwise.  Returns the new buffer state and the index
(generation) of the backing array that now holds d. -/
def writeDelta (buf : DeltaBuf) (d : List ℝ) : DeltaBuf × ℕ :=
  if d.length ≤ buf.cur.length then
    (⟨buf.finished, d ++ buf.cur.drop d.length⟩, buf.finished.length)
  else
    (⟨buf.finished ++ [buf.cur], d⟩, buf.finished.length + 1)

/-- Backward loop of backpropQuadCost, network.go lines 250-259, over the
layer indices idxs = [size-2, ..., 0].  delta carries the current delta
values; refs records, layer by layer (prepended, so the result is ordered by
layer), the (generation, length) view stored by nablaB[i] = delta; nw
accumulates nablaW[i] = activations[i].T() x delta, which mat64 writes into
storage cloned from Weights[i], so it is never aliased. -/
noncomputable def backwardLoop (n : Network) (acts zs : List (List ℝ)) :
    List ℕ → DeltaBuf → List ℝ → List (ℕ × ℕ) → List (List (List ℝ)) →
    DeltaBuf × List (ℕ × ℕ) × List (List (List ℝ))
  | [], buf, _, refs, nw => (buf, refs, nw)
  | i :: rest, buf, delta, refs, nw =>
    let sp := (zs.getD i []).map sigmoidPrime
    let t := rowMulT delta (n.weights.getD (i + 1) [])
    let d := vecHad t sp
    let w := writeDelta buf d
    backwardLoop n acts zs rest w.1 d ((w.2, d.length) :: refs)
      (outerMul (acts.getD i []) d :: nw)

/-- backpropQuadCost, network.go lines 203-262.  Fails (log.Fatal, modelled
as none) unless the example holds exactly two elements (input and desired
output).  Otherwise runs the forward pass keeping activations and zs, forms
the output-layer delta from quadraticCost and sigmoidPrime, clones it into
nablaB[size-1], computes nablaW[size-1], then runs the backward loop; each
remaining nablaB[i] is finally read back through its stored view of the
delta backing arrays, reproducing the mat64 aliasing of nablaB[i] = delta.
The eta parameter is accepted and, exactly as in the Go code, never used. -/
noncomputable def backpropQuadCost (n : Network) (data : List (List ℝ)) (eta : ℝ) :
    Option (List (List ℝ) × List (List (List ℝ))) :=
  if data.length ≠ 2 then none
  else
    let size := n.numLayers - 1
    let x := data.getD 0 []
    let y := data.getD 1 []
    let tr := forwardTraceN n x size
    let acts := tr.1
    let zs := tr.2
    let err := quadraticCost (acts.getD size []) y
    let delta := vecHad err ((zs.getD (size - 1) []).map sigmoidPrime)
    let nbLast := delta
    let nwLast := outerMul (acts.getD (size - 1) []) delta
    let res := backwardLoop n acts zs ((List.range (size - 1)).reverse)
      ⟨[], delta⟩ delta [] []
    let bufs := res.1.finished ++ [res.1.cur]
    let nbLow := res.2.1.map fun r => (bufs.getD r.1 []).take r.2
    some (nbLow ++ [nbLast], res.2.2 ++ [nwLast])

/-- Iteration count of SGD, network.go lines 133-136:
len(data)/batchSize, plus one when the division leaves a remainder.  The Go
code divides ints; for batchSize >= 1 this agrees with natural division
(batchSize = 0 makes the Go program panic and is outside the model). -/
def sgdIterations (N B : ℕ) : ℕ := N / B + (if N % B = 0 then 0 else 1)

/-- Batch plan of SGD, network.go lines 139-151: for each iteration index i
(in order), the pair (i, bs) of the window start used by data[i+j] and the
batchSize value in force during that iteration.  batchSize is a mutable Go
int: when len(data) - i*batchSize < batchSize it is reassigned to that
remainder and the new value persists into later iterations, so the
recursion threads it (as an integer, mirroring Go int arithmetic; the
emitted size is its clamp to ℕ, since a non-positive batchSize makes the
inner example loop body run zero times). -/
def sgdPlanAux (N : ℕ) : List ℕ → ℤ → List (ℕ × ℕ)
  | [], _ => []
  | i :: rest, bs =>
    let bs' : ℤ := if (N : ℤ) - i * bs < bs then (N : ℤ) - i * bs else bs
    (i, bs'.toNat) :: sgdPlanAux N rest bs'

/-- Batch plan of SGD for a training set of N examples and initial batch
size B. -/
def sgdPlan (N B : ℕ) : List (ℕ × ℕ) := sgdPlanAux N (List.range (sgdIterations N B)) B

/-- Example indices processed by each SGD iteration, network.go lines
153-154: iteration (i, bs) of the plan calls backpropQuadCost on
data[i + j] for j = 0, ..., bs - 1. -/
def sgdIndices (N B : ℕ) : List (List ℕ) :=
  (sgdPlan N B).map fun p => (List.range p.2).map (p.1 + ·)

/-- Zero gradient accumulators of SGD, network.go lines 140-147: for each of
the NumLayers - 1 connections, a zero matrix of shape
(Sizes[i], Sizes[i+1]) and a zero row vector of width Sizes[i+1]. -/
def zeroGrads (n : Network) : List (List ℝ) × List (List (List ℝ)) :=
  ((List.range (n.numLayers - 1)).map fun i =>
      List.replicate (n.sizes.getD (i + 1) 0) (0 : ℝ),
   (List.range (n.numLayers - 1)).map fun i =>
      (List.range (n.sizes.getD i 0)).map fun _ =>
        List.replicate (n.sizes.getD (i + 1) 0) (0 : ℝ))

/-- Gradient accumulation of SGD, network.go lines 155-158: elementwise sum
of the accumulators with one example's (nablaB, nablaW). -/
def accGrads (acc g : List (List ℝ) × List (List (List ℝ))) :
    List (List ℝ) × List (List (List ℝ)) :=
  (List.zipWith vecAdd acc.1 g.1, List.zipWith matAdd acc.2 g.2)

/-- Parameter update of SGD, network.go lines 163-176: every bias entry
becomes B - nablaB*eta/batchSize and every weight entry
W - nablaW*eta/batchSize, iterating over the accumulator's dimensions. -/
noncomputable def updateNet (n : Network) (eta : ℝ) (bs : ℕ)
    (acc : List (List ℝ) × List (List (List ℝ))) : Network :=
  { n with
    biases := List.zipWith (fun b nb =>
        List.zipWith (fun v g => v - g * eta / (bs : ℝ)) b nb) n.biases acc.1,
    weights := List.zipWith (fun w nw =>
        List.zipWith (fun row nrow =>
          List.zipWith (fun v g => v - g * eta / (bs : ℝ)) row nrow) w nw) n.weights acc.2 }

/-- One SGD batch iteration, network.go lines 139-176, at plan entry
p = (window start, batchSize in force): zero accumulators, add the gradients
of backpropQuadCost on data[p.1 + j] for j < p.2 (none propagates a fatal
backpropQuadCost), then apply the parameter update. -/
noncomputable def sgdBatchStep (data : List (List (List ℝ))) (eta : ℝ)
    (n : Network) (p : ℕ × ℕ) : Option Network :=
  ((List.range p.2).foldlM
      (fun acc j => (backpropQuadCost n (data.getD (p.1 + j) []) eta).map (accGrads acc))
      (zeroGrads n)).map
    (updateNet n eta p.2)

/-- SGD, network.go lines 128-189.  Fails (log.Fatal, modelled as none) when
the network has fewer than two layers; otherwise folds the batch steps over
the batch plan, threading the updated network from batch to batch.  The
optional test-evaluation phase (lines 178-188) only prints an accuracy count
and changes no network state, so it is not part of the returned value. -/
noncomputable def SGD (n : Network) (data : List (List (List ℝ))) (eta : ℝ) (B : ℕ) :
    Option Network :=
  if n.numLayers < 2 then none
  else (sgdPlan data.length B).foldlM (sgdBatchStep data eta) n

/-- Snapshot formulation of one SGD batch: first compute every example's
gradients from the same pre-update network, then sum them, then update.
Used to state that all per-example gradient computations of a batch observe
the same parameter values. -/
noncomputable def sgdSnapshotStep (data : List (List (List ℝ))) (eta : ℝ)
    (n : Network) (p : ℕ × ℕ) : Option Network :=
  (((List.range p.2).mapM fun j => backpropQuadCost n (data.getD (p.1 + j) []) eta).map
    fun gs => updateNet n eta p.2 (gs.foldl accGrads (zeroGrads n)))

/-- SGD with every batch in snapshot formulation. -/
noncomputable def sgdSnapshot (n : Network) (data : List (List (List ℝ))) (eta : ℝ) (B : ℕ) :
    Option Network :=
  if n.numLayers < 2 then none
  else (sgdPlan data.length B).foldlM (sgdSnapshotStep data eta) n

/-- Modelled from the spec: the mini-batch partition of spec section 4.4.1,
which the repository's SGD does not implement (its window for iteration i
starts at index i, not i * B).  Batch i covers the consecutive examples
i*B, ..., i*B + bs - 1 with bs = min B (N - i*B), over ceil(N/B) batches;
each batch is processed exactly as the code's batch step processes its
window. -/
noncomputable def sgdSpecPartition (n : Network) (data : List (List (List ℝ)))
    (eta : ℝ) (B : ℕ) : Option Network :=
  if n.numLayers < 2 then none
  else
    ((List.range (sgdIterations data.length B)).map fun i =>
        (i * B, min B (data.length - i * B))).foldlM (sgdBatchStep data eta) n

/-- Shape invariant of an initialized network (spec section 3): NumLayers
matches the sizes list, there are NumLayers - 1 weight matrices and bias
vectors, weight matrix i has shape (sizes[i], sizes[i+1]), bias vector i has
width sizes[i+1], and every layer width is positive (mat64 rejects
zero-dimension matrices, and spec section 4.1 takes positive widths). -/
def WellFormed (n : Network) : Prop :=
  n.sizes.length = n.numLayers ∧ 2 ≤ n.numLayers ∧
  n.weights.length = n.numLayers - 1 ∧ n.biases.length = n.numLayers - 1 ∧
  (∀ i < n.numLayers - 1,
    (n.weights.getD i []).length = n.sizes.getD i 0 ∧
    (∀ row ∈ n.weights.getD i [], row.length = n.sizes.getD (i + 1) 0) ∧
    (n.biases.getD i []).length = n.sizes.getD (i + 1) 0) ∧
  (∀ s ∈ n.sizes, 0 < s)

instance (n : Network) : Decidable (WellFormed n) := by
  unfold WellFormed
  exact inferInstance

/-- Two-layer network of sizes [1, 1] with zero weight and bias, used as a
concrete instance. -/
def net2 : Network := ⟨2, [1, 1], [[[0]]], [[0]]⟩

/-- Three-layer network of sizes [1, 1, 1] with zero weights and biases,
used as a concrete instance. -/
def net3 : Network := ⟨3, [1, 1, 1], [[[0]], [[0]]], [[0], [0]]⟩

/-- Four-layer network of sizes [1, 1, 1, 1] with weights 0, 2, 2 and biases
0, -1, -1, chosen so that on input [0] every pre-activation is exactly 0 and
the three per-layer deltas are pairwise different. -/
def net4 : Network := ⟨4, [1, 1, 1, 1], [[[0]], [[2]], [[2]]], [[0], [-1], [-1]]⟩

/-- Training set of three examples for the [1, 1] network: inputs are all
[0], desired outputs are [1], [0] and [2].  With batch size 2 the first two
gradients cancel, so the second batch isolates the indexing of the final
short batch. -/
def data3 : List (List (List ℝ)) := [[[0], [1]], [[0], [0]], [[0], [2]]]

/-- The network the code's SGD actually produces from net2 on data3 with
eta = 1 and batch size 2 (its final batch re-processes example 1). -/
noncomputable def net2b : Network := ⟨2, [1, 1], [[[0]]], [[-(1 : ℝ) / 8]]⟩

/-- The network the spec's batch partition produces from net2 on data3 with
eta = 1 and batch size 2 (its final batch processes example 2). -/
noncomputable def net2c : Network := ⟨2, [1, 1], [[[0]]], [[(3 : ℝ) / 8]]⟩

/-! ### Helper lemmas -/

theorem getD_map_range {α : Type} (f : ℕ → α) {m k : ℕ} (h : k < m) (d : α) :
    ((List.range m).map f).getD k d = f k := by
  rw [List.getD_eq_getElem?_getD, List.getElem?_map, List.getElem?_range h]
  rfl

theorem getLastD_map_range {α : Type} (f : ℕ → α) (m : ℕ) (d : α) :
    ((List.range (m + 1)).map f).getLastD d = f m := by
  rw [List.range_succ, List.map_append]
  simp

theorem getD_append_singleton {α : Type} (l : List α) (a d : α) :
    (l ++ [a]).getD l.length d = a := by
  rw [List.getD_append_right _ _ _ _ le_rfl, Nat.sub_self]
  rfl

theorem forwardTraceN_eq (n : Network) (x : List ℝ) (m : ℕ) :
    forwardTraceN n x m =
      ((List.range (m + 1)).map (actAt n x), (List.range m).map (zAt n x)) := by
  induction m with
  | zero =>
    have h1 : List.range 1 = [0] := rfl
    simp [forwardTraceN, h1, actAt]
  | succ k ih =>
    unfold forwardTraceN at ih ⊢
    rw [List.range_succ, List.foldl_append, ih]
    simp only [List.foldl_cons, List.foldl_nil]
    simp only [getLastD_map_range]
    simp only [List.range_succ, List.map_append, List.map_cons, List.map_nil]
    rfl

theorem feedForward_eq_actAt (n : Network) (x : List ℝ) :
    feedForward n x = actAt n x (n.numLayers - 1) := by
  have key : ∀ m : ℕ, (List.range m).foldl
      (fun a i => (vecAdd (rowMul a (n.weights.getD i [])) (n.biases.getD i [])).map sigmoid) x
      = actAt n x m := by
    intro m
    induction m with
    | zero => simp [actAt]
    | succ k ih =>
      rw [List.range_succ, List.foldl_append, ih]
      simp [actAt]
  exact key _

theorem length_vecAdd (a b : List ℝ) : (vecAdd a b).length = min a.length b.length :=
  List.length_zipWith ..

theorem length_rowMul (v : List ℝ) (W : List (List ℝ)) :
    (rowMul v W).length = (W.headD []).length := by
  simp [rowMul]

theorem headD_length {W : List (List ℝ)} {c : ℕ} (hne : W ≠ [])
    (hall : ∀ row ∈ W, row.length = c) : (W.headD []).length = c := by
  cases W with
  | nil => exact absurd rfl hne
  | cons r t => exact hall r (List.mem_cons_self r t)

theorem actAt_succ_length (n : Network) (x : List ℝ) (h : WellFormed n) {k : ℕ}
    (hk : k < n.numLayers - 1) :
    (actAt n x (k + 1)).length = n.sizes.getD (k + 1) 0 := by
  obtain ⟨hs, h2, hw, hb, hshape, hpos⟩ := h
  obtain ⟨hwlen, hrows, hblen⟩ := hshape k hk
  have hks : k < n.sizes.length := by omega
  have hmem : n.sizes.getD k 0 ∈ n.sizes := by
    rw [List.getD_eq_getElem _ _ hks]
    exact List.getElem_mem hks
  have hWne : n.weights.getD k [] ≠ [] := by
    intro e
    have h1 := hpos _ hmem
    have h0 : (n.weights.getD k []).length = 0 := by rw [e]; rfl
    omega
  have hstep : actAt n x (k + 1)
      = (vecAdd (rowMul (actAt n x k) (n.weights.getD k [])) (n.biases.getD k [])).map sigmoid :=
    rfl
  rw [hstep, List.length_map, length_vecAdd, length_rowMul, headD_length hWne hrows, hblen,
    Nat.min_self]

theorem backwardLoop_lengths (n : Network) (acts zs : List (List ℝ)) (idxs : List ℕ) :
    ∀ (buf : DeltaBuf) (delta : List ℝ) (refs : List (ℕ × ℕ)) (nw : List (List (List ℝ))),
    (backwardLoop n acts zs idxs buf delta refs nw).2.1.length = idxs.length + refs.length ∧
    (backwardLoop n acts zs idxs buf delta refs nw).2.2.length = idxs.length + nw.length := by
  induction idxs with
  | nil => intro buf delta refs nw; simp [backwardLoop]
  | cons i rest ih =>
    intro buf delta refs nw
    simp only [backwardLoop]
    constructor
    · rw [(ih _ _ _ _).1]
      simp
      omega
    · rw [(ih _ _ _ _).2]
      simp
      omega

theorem backprop_parts (n : Network) (x y : List ℝ) (eta : ℝ) (h : 2 ≤ n.numLayers) :
    ∃ nbLow nwLow,
      backpropQuadCost n [x, y] eta =
        some (nbLow ++ [outputDelta n x y],
          nwLow ++ [outerMul (actAt n x (n.numLayers - 2)) (outputDelta n x y)]) ∧
      nbLow.length = n.numLayers - 2 ∧ nwLow.length = n.numLayers - 2 := by
  have h21 : n.numLayers - 1 - 1 = n.numLayers - 2 := by omega
  have hne : ¬(([x, y] : List (List ℝ)).length ≠ 2) := by simp
  have hacts : (forwardTraceN n x (n.numLayers - 1)).1.getD (n.numLayers - 1) [] =
      actAt n x (n.numLayers - 1) := by
    rw [forwardTraceN_eq]
    exact getD_map_range _ (Nat.lt_succ_self _) _
  have hacts2 : (forwardTraceN n x (n.numLayers - 1)).1.getD (n.numLayers - 1 - 1) [] =
      actAt n x (n.numLayers - 2) := by
    rw [forwardTraceN_eq, h21]
    exact getD_map_range _ (by omega) _
  have hzs : (forwardTraceN n x (n.numLayers - 1)).2.getD (n.numLayers - 1 - 1) [] =
      zAt n x (n.numLayers - 2) := by
    rw [forwardTraceN_eq, h21]
    exact getD_map_range _ (by omega) _
  unfold backpropQuadCost
  rw [if_neg hne]
  simp only []
  rw [show ([x, y] : List (List ℝ)).getD 0 [] = x from rfl,
    show ([x, y] : List (List ℝ)).getD 1 [] = y from rfl, hacts, hacts2, hzs]
  have hdelta : vecHad (quadraticCost (actAt n x (n.numLayers - 1)) y)
      ((zAt n x (n.numLayers - 2)).map sigmoidPrime) = outputDelta n x y := rfl
  rw [hdelta]
  refine ⟨_, _, rfl, ?_, ?_⟩
  · rw [List.length_map, (backwardLoop_lengths n _ _ _ _ _ _ _).1]
    simp [h21]
  · rw [(backwardLoop_lengths n _ _ _ _ _ _ _).2]
    simp [h21]

/-- C2 (amended): for every network with at least two layers and every
example of input x and desired output y, backpropQuadCost returns gradients
whose output-layer entries satisfy nablaB[L-2] = delta and
nablaW[L-2] = transpose(activations[L-2]) x delta, the transpose of the
previous layer's activation times the output-layer error (for a two-layer
network activations[L-2] = activations[0] is the input). -/
theorem backprop_output_layer (n : Network) (x y : List ℝ) (eta : ℝ) (h : 2 ≤ n.numLayers) :
    ∃ nb nw, backpropQuadCost n [x, y] eta = some (nb, nw) ∧
      nb.getD (n.numLayers - 2) [] = outputDelta n x y ∧
      nw.getD (n.numLayers - 2) [] =
        outerMul (actAt n x (n.numLayers - 2)) (outputDelta n x y) := by
  obtain ⟨nbLow, nwLow, heq, hl1, hl2⟩ := backprop_parts n x y eta h
  refine ⟨_, _, heq, ?_, ?_⟩
  · rw [← hl1, getD_append_singleton]
  · rw [← hl2, getD_append_singleton]

/-- Witness for backprop_output_layer at the concrete two-layer network
net2 and the example with input [0] and desired output [0]. -/
theorem backprop_output_layer_witness :
    2 ≤ net2.numLayers ∧
    ∃ nb nw, backpropQuadCost net2 [[0], [0]] 1 = some (nb, nw) ∧
      nb.getD (net2.numLayers - 2) [] = outputDelta net2 [0] [0] ∧
      nw.getD (net2.numLayers - 2) [] =
        outerMul (actAt net2 [0] (net2.numLayers - 2)) (outputDelta net2 [0] [0]) :=
  ⟨by decide, backprop_output_layer net2 [0] [0] 1 (by decide)⟩

/-- C6: quadraticCost maps (output, desired) to the elementwise difference
output - desired (the error signal, not the scalar cost), sigmoidPrime is
sigmoid(z)*(1-sigmoid(z)) elementwise, and the output-layer error that
backpropQuadCost stores as nablaB[L-2] is
(activations[L-1] - desired) hadamard sigmoidPrime(zs[L-2]). -/
theorem quadratic_cost_error_signal (n : Network) (x y o d : List ℝ) (eta : ℝ)
    (h : 2 ≤ n.numLayers) :
    quadraticCost o d = List.zipWith (· - ·) o d ∧
    (∀ z : ℝ, sigmoidPrime z = sigmoid z * (1 - sigmoid z)) ∧
    ∃ nb nw, backpropQuadCost n [x, y] eta = some (nb, nw) ∧
      nb.getD (n.numLayers - 2) [] =
        vecHad (quadraticCost (actAt n x (n.numLayers - 1)) y)
          ((zAt n x (n.numLayers - 2)).map sigmoidPrime) := by
  refine ⟨rfl, fun z => rfl, ?_⟩
  obtain ⟨nbLow, nwLow, heq, hl1, _⟩ := backprop_parts n x y eta h
  have hget : (nbLow ++ [outputDelta n x y]).getD (n.numLayers - 2) [] = outputDelta n x y := by
    rw [← hl1]
    exact getD_append_singleton ..
  exact ⟨_, _, heq, by rw [hget]; rfl⟩

/-- Witness for quadratic_cost_error_signal at net2 and the example with
input [0] and desired output [1]. -/
theorem quadratic_cost_error_signal_witness :
    2 ≤ net2.numLayers ∧
    (quadraticCost [(1 : ℝ)] [0] = List.zipWith (· - ·) [(1 : ℝ)] [0] ∧
    (∀ z : ℝ, sigmoidPrime z = sigmoid z * (1 - sigmoid z)) ∧
    ∃ nb nw, backpropQuadCost net2 [[0], [1]] 1 = some (nb, nw) ∧
      nb.getD (net2.numLayers - 2) [] =
        vecHad (quadraticCost (actAt net2 [0] (net2.numLayers - 1)) [1])
          ((zAt net2 [0] (net2.numLayers - 2)).map sigmoidPrime)) :=
  ⟨by decide, quadratic_cost_error_signal net2 [0] [1] [1] [0] 1 (by decide)⟩

/-- C5: FeedForward equals the activation recurrence of the spec
(activation 0 is the input, activation i+1 applies sigmoid elementwise to
activation i x W[i] + B[i]), and its output width equals the last layer
size, regardless of the input values, for every well-formed network. -/
theorem feedForward_spec (n : Network) (x : List ℝ) (h : WellFormed n) :
    feedForward n x = actAt n x (n.numLayers - 1) ∧
    actAt n x 0 = x ∧
    (∀ i : ℕ, actAt n x (i + 1) =
      (vecAdd (rowMul (actAt n x i) (n.weights.getD i [])) (n.biases.getD i [])).map sigmoid) ∧
    (feedForward n x).length = n.sizes.getD (n.numLayers - 1) 0 := by
  refine ⟨feedForward_eq_actAt n x, rfl, fun i => rfl, ?_⟩
  rw [feedForward_eq_actAt]
  have h2 := h.2.1
  have hsplit : n.numLayers - 1 = (n.numLayers - 2) + 1 := by omega
  rw [hsplit]
  exact actAt_succ_length n x h (by omega)

/-- Witness for feedForward_spec at the concrete network net2 and
input [0]. -/
theorem feedForward_spec_witness :
    WellFormed net2 ∧ (feedForward net2 [0]).length = net2.sizes.getD (net2.numLayers - 1) 0 :=
  ⟨by decide, (feedForward_spec net2 [0] (by decide)).2.2.2⟩

/-- C1: on a training set of 3 examples with batch size 2 the code's SGD
loop processes example windows [0, 1] and then [1] (the window of iteration
i starts at index i, per data[i+j] in network.go line 154), so example 2 is
never backpropagated and example 1 is backpropagated twice; the claimed
partition into consecutive batches [0, 1] and [2] is not what the code
does. -/
theorem sgd_partition_bug :
    sgdIndices 3 2 = [[0, 1], [1]] ∧ sgdIndices 3 2 ≠ [[0, 1], [2]] ∧
    2 ∉ (sgdIndices 3 2).flatten := by
  refine ⟨by decide, by decide, by decide⟩

/-- C10: the gradients returned by backpropQuadCost do not depend on its
eta argument; the Go function accepts eta and never reads it, so the
embedding is literally independent of it. -/
theorem backprop_independent_of_eta (n : Network) (ex : List (List ℝ)) (eta1 eta2 : ℝ) :
    backpropQuadCost n ex eta1 = backpropQuadCost n ex eta2 := rfl

theorem initLayersAux_shapes (g : ℕ → ℝ) :
    ∀ (pairs : List (ℕ × ℕ)) (ctr : ℕ),
      (initLayersAux g pairs ctr).1.length = pairs.length ∧
      (initLayersAux g pairs ctr).2.length = pairs.length ∧
      ∀ k, k < pairs.length →
        ((initLayersAux g pairs ctr).1.getD k []).length = (pairs.getD k (0, 0)).1 ∧
        (∀ row ∈ (initLayersAux g pairs ctr).1.getD k [],
          row.length = (pairs.getD k (0, 0)).2) ∧
        ((initLayersAux g pairs ctr).2.getD k []).length = (pairs.getD k (0, 0)).2 := by
  intro pairs
  induction pairs with
  | nil => intro ctr; simp [initLayersAux]
  | cons p rest ih =>
    intro ctr
    obtain ⟨r, c⟩ := p
    simp only [initLayersAux]
    refine ⟨by simp [(ih _).1], by simp [(ih _).2.1], ?_⟩
    intro k hk
    cases k with
    | zero =>
      refine ⟨by simp, ?_, by simp⟩
      intro row hrow
      simp only [List.getD_cons_zero] at hrow
      obtain ⟨j, _, hj⟩ := List.mem_map.mp hrow
      simp [← hj]
    | succ k' =>
      have hk' : k' < rest.length := by simpa using hk
      have h3 := (ih (ctr + r * c + c)).2.2 k' hk'
      simpa [List.getD_cons_succ] using h3

theorem zip_tail_getD : ∀ (l : List ℕ) (i : ℕ), i + 1 < l.length →
    (l.zip l.tail).getD i (0, 0) = (l.getD i 0, l.getD (i + 1) 0) := by
  intro l
  induction l with
  | nil => intro i h; simp at h
  | cons a t ih =>
    intro i h
    cases t with
    | nil => simp at h
    | cons b t' =>
      cases i with
      | zero => rfl
      | succ i' =>
        have h' : i' + 1 < (b :: t').length := by simpa using h
        simpa [List.getD_cons_succ] using ih i' h'

/-- C8: for every sequence of at least two positive layer sizes, init
produces a network with exactly length-1 weight matrices and length-1 bias
vectors, weight matrix i of shape (sizes[i], sizes[i+1]) and bias vector i
of width sizes[i+1] (a 1 x sizes[i+1] row).  Positivity of the sizes is the
domain of the Go code: mat64.NewDense rejects zero dimensions, and spec
section 4.1 takes positive widths. -/
theorem init_shapes (size : List ℕ) (g : ℕ → ℝ) (h2 : 2 ≤ size.length)
    (hpos : ∀ s ∈ size, 0 < s) :
    ∃ net, init size g = some net ∧ net.numLayers = size.length ∧ net.sizes = size ∧
      net.weights.length = size.length - 1 ∧ net.biases.length = size.length - 1 ∧
      ∀ i, i < size.length - 1 →
        (net.weights.getD i []).length = size.getD i 0 ∧
        (∀ row ∈ net.weights.getD i [], row.length = size.getD (i + 1) 0) ∧
        (net.biases.getD i []).length = size.getD (i + 1) 0 := by
  have hne : ¬(size.length < 2) := by omega
  have hzl : (size.zip size.tail).length = size.length - 1 := by
    rw [List.length_zip, List.length_tail]
    omega
  obtain ⟨hw, hb, hsh⟩ := initLayersAux_shapes g (size.zip size.tail) 0
  refine ⟨⟨size.length, size, (initLayersAux g (size.zip size.tail) 0).1,
    (initLayersAux g (size.zip size.tail) 0).2⟩, ?_, rfl, rfl, ?_, ?_, ?_⟩
  · rw [init, if_neg hne]
  · rw [hw, hzl]
  · rw [hb, hzl]
  · intro i hi
    have hi' : i < (size.zip size.tail).length := by omega
    obtain ⟨hA, hB, hC⟩ := hsh i hi'
    rw [zip_tail_getD size i (by omega)] at hA hB hC
    exact ⟨hA, hB, hC⟩

/-- Witness for init_shapes at the sizes [2, 3, 4] used by the repository's
own TestInit, with the zero random stream. -/
theorem init_shapes_witness :
    2 ≤ ([2, 3, 4] : List ℕ).length ∧ (∀ s ∈ ([2, 3, 4] : List ℕ), 0 < s) ∧
    ∃ net, init [2, 3, 4] (fun _ => 0) = some net ∧
      net.numLayers = ([2, 3, 4] : List ℕ).length ∧ net.sizes = [2, 3, 4] ∧
      net.weights.length = ([2, 3, 4] : List ℕ).length - 1 ∧
      net.biases.length = ([2, 3, 4] : List ℕ).length - 1 ∧
      ∀ i, i < ([2, 3, 4] : List ℕ).length - 1 →
        (net.weights.getD i []).length = ([2, 3, 4] : List ℕ).getD i 0 ∧
        (∀ row ∈ net.weights.getD i [], row.length = ([2, 3, 4] : List ℕ).getD (i + 1) 0) ∧
        (net.biases.getD i []).length = ([2, 3, 4] : List ℕ).getD (i + 1) 0 :=
  ⟨by decide, by decide, init_shapes [2, 3, 4] (fun _ => 0) (by decide) (by decide)⟩

theorem sgdPlanAux_bounds (N : ℕ) :
    ∀ (l : List ℕ) (bs : ℤ), ∀ p ∈ sgdPlanAux N l bs, ∀ j, j < p.2 → p.1 + j < N := by
  intro l
  induction l with
  | nil => intro bs p hp; simp [sgdPlanAux] at hp
  | cons i rest ih =>
    intro bs p hp j hj
    rw [sgdPlanAux] at hp
    simp only [List.mem_cons] at hp
    rcases hp with he | ht
    · subst he
      simp only at hj
      by_cases hc : (N : ℤ) - i * bs < bs
      · rw [if_pos hc] at hj
        have hbs1 : 1 ≤ bs := by omega
        have hib : (i : ℤ) ≤ i * bs := le_mul_of_one_le_right (Int.ofNat_nonneg i) hbs1
        omega
      · rw [if_neg hc] at hj
        have hbs1 : 1 ≤ bs := by omega
        have hib : (i : ℤ) ≤ i * bs := le_mul_of_one_le_right (Int.ofNat_nonneg i) hbs1
        omega
    · exact ih _ p ht j hj

theorem foldlM_option_isSome {α β : Type} (f : β → α → Option β) (l : List α) :
    ∀ z : β, (∀ a ∈ l, ∀ b, (f b a).isSome) → (l.foldlM f z).isSome := by
  induction l with
  | nil => intro z _; rfl
  | cons a t ih =>
    intro z h
    rw [List.foldlM_cons]
    obtain ⟨b, hb⟩ := Option.isSome_iff_exists.mp (h a (List.mem_cons_self a t) z)
    rw [hb]
    simpa using ih b fun a' ha' => h a' (List.mem_cons_of_mem a ha')

theorem isSome_option_map {α β : Type} (f : α → β) (o : Option α) :
    (o.map f).isSome = o.isSome := by cases o <;> rfl

theorem backprop_none_iff (n : Network) (ex : List (List ℝ)) (eta : ℝ) :
    backpropQuadCost n ex eta = none ↔ ex.length ≠ 2 := by
  unfold backpropQuadCost
  by_cases h : ex.length ≠ 2 <;> simp [h]

theorem sgdBatchStep_isSome (data : List (List (List ℝ))) (eta : ℝ) (n : Network) (p : ℕ × ℕ)
    (hall : ∀ e ∈ data, e.length = 2) (hidx : ∀ j, j < p.2 → p.1 + j < data.length) :
    (sgdBatchStep data eta n p).isSome := by
  unfold sgdBatchStep
  rw [isSome_option_map]
  apply foldlM_option_isSome
  intro j hj acc
  rw [isSome_option_map]
  have hjlt : p.1 + j < data.length := hidx j (List.mem_range.mp hj)
  have hmem : data.getD (p.1 + j) [] ∈ data := by
    rw [List.getD_eq_getElem _ _ hjlt]
    exact List.getElem_mem hjlt
  have h2 := hall _ hmem
  rw [Option.isSome_iff_ne_none]
  intro hnone
  rw [backprop_none_iff] at hnone
  exact hnone h2

/-- C7: init fails fatally (none) exactly when fewer than two layer sizes
are given; SGD fails fatally exactly when the network has fewer than two
layers, for any batch size at least 1 and any training set of well-formed
two-element examples; backpropQuadCost fails fatally exactly when the
example does not consist of exactly two elements.  In each fatal case the
Option result is none: no partial result is produced (log.Fatal kills the
Go process before anything is returned). -/
theorem fatal_error_conditions (size : List ℕ) (g : ℕ → ℝ) (n : Network)
    (data : List (List (List ℝ))) (eta : ℝ) (B : ℕ) (ex : List (List ℝ))
    (hB : 1 ≤ B) (hdata : ∀ e ∈ data, e.length = 2) :
    (init size g = none ↔ size.length < 2) ∧
    (SGD n data eta B = none ↔ n.numLayers < 2) ∧
    (backpropQuadCost n ex eta = none ↔ ex.length ≠ 2) := by
  refine ⟨?_, ?_, backprop_none_iff n ex eta⟩
  · unfold init
    by_cases h : size.length < 2 <;> simp [h]
  · unfold SGD
    by_cases h : n.numLayers < 2
    · simp [h]
    · rw [if_neg h]
      simp only [h, iff_false]
      intro hnone
      have hs := foldlM_option_isSome (sgdBatchStep data eta) (sgdPlan data.length B) n
        (fun p hp m => sgdBatchStep_isSome data eta m p hdata
          (fun j hj => sgdPlanAux_bounds data.length _ _ p hp j hj))
      rw [hnone] at hs
      simp at hs

/-- Witness for fatal_error_conditions at concrete arguments: sizes [2, 3],
the network net2, a singleton training set of one well-formed example,
batch size 1. -/
theorem fatal_error_conditions_witness :
    1 ≤ 1 ∧ (∀ e ∈ ([[[0], [0]]] : List (List (List ℝ))), e.length = 2) ∧
    ((init [2, 3] (fun _ => 0) = none ↔ ([2, 3] : List ℕ).length < 2) ∧
    (SGD net2 [[[0], [0]]] 1 1 = none ↔ net2.numLayers < 2) ∧
    (backpropQuadCost net2 [[0], [0]] 1 = none ↔ ([[0], [0]] : List (List ℝ)).length ≠ 2)) := by
  have hdata : ∀ e ∈ ([[[0], [0]]] : List (List (List ℝ))), e.length = 2 := by
    intro e he
    rw [List.mem_singleton] at he
    subst he
    rfl
  exact ⟨le_rfl, hdata,
    fatal_error_conditions [2, 3] (fun _ => 0) net2 [[[0], [0]]] 1 1 [[0], [0]] le_rfl hdata⟩

theorem foldlM_map_option_aux {α β γ : Type} (f : α → Option β) (g : γ → β → γ)
    (l : List α) :
    ∀ z : γ, l.foldlM (fun acc a => (f a).map (g acc)) z =
      (List.mapM' f l).map fun bs => bs.foldl g z := by
  induction l with
  | nil => intro z; rfl
  | cons a t ih =>
    intro z
    rw [List.foldlM_cons, List.mapM']
    cases hfa : f a with
    | none => simp [hfa]
    | some b =>
      cases hmt : List.mapM' f t with
      | none => simp [hfa, hmt, ih (g z b)]
      | some bs => simp [hfa, hmt, ih (g z b)]

theorem foldlM_map_option {α β γ : Type} (f : α → Option β) (g : γ → β → γ) (l : List α) :
    ∀ z : γ, l.foldlM (fun acc a => (f a).map (g acc)) z =
      (l.mapM f).map fun bs => bs.foldl g z := by
  intro z
  rw [← List.mapM'_eq_mapM]
  exact foldlM_map_option_aux f g l z

theorem batchStep_eq_snapshot (data : List (List (List ℝ))) (eta : ℝ) (n : Network)
    (p : ℕ × ℕ) : sgdBatchStep data eta n p = sgdSnapshotStep data eta n p := by
  unfold sgdBatchStep sgdSnapshotStep
  rw [foldlM_map_option (fun j => backpropQuadCost n (data.getD (p.1 + j) []) eta) accGrads]
  rw [Option.map_map]
  rfl

theorem batchStep_preserves (data : List (List (List ℝ))) (eta : ℝ) (m : Network) (p : ℕ × ℕ) :
    (sgdBatchStep data eta m p).map Network.numLayers =
      (sgdBatchStep data eta m p).map (fun _ => m.numLayers) ∧
    (sgdBatchStep data eta m p).map Network.sizes =
      (sgdBatchStep data eta m p).map (fun _ => m.sizes) := by
  unfold sgdBatchStep
  cases hfold : (List.range p.2).foldlM
      (fun acc j => (backpropQuadCost m (data.getD (p.1 + j) []) eta).map (accGrads acc))
      (zeroGrads m) with
  | none => exact ⟨rfl, rfl⟩
  | some acc => exact ⟨rfl, rfl⟩

theorem foldlM_option_preserve {α β γ : Type} (f : β → α → Option β) (F : β → γ)
    (l : List α) (hpre : ∀ b a, (f b a).map F = (f b a).map fun _ => F b) :
    ∀ z : β, (l.foldlM f z).map F = (l.foldlM f z).map fun _ => F z := by
  induction l with
  | nil => intro z; rfl
  | cons a t ih =>
    intro z
    rw [List.foldlM_cons]
    cases hfa : f z a with
    | none => rfl
    | some b =>
      have hFb : F b = F z := by
        have h := hpre z a
        rw [hfa] at h
        simpa using h
      show (t.foldlM f b).map F = (t.foldlM f b).map fun _ => F z
      rw [ih b]
      simp only [hFb]

theorem foldlM_congr_option {α β : Type} (f f' : β → α → Option β)
    (h : ∀ b a, f b a = f' b a) (l : List α) : ∀ z, l.foldlM f z = l.foldlM f' z := by
  induction l with
  | nil => intro z; rfl
  | cons a t ih =>
    intro z
    rw [List.foldlM_cons, List.foldlM_cons, h z a]
    cases f' z a <;> simp [ih]

/-- C9: the SGD driver is equivalent to the snapshot formulation in which
every batch first computes all of its per-example gradients from the same
pre-update parameters, then sums them, then updates, so no gradient inside a
batch observes a partial update; and SGD leaves the layer count and layer
sizes of the network unchanged (only weights and biases are written by the
update step).  In this embedding FeedForward and backpropQuadCost are pure
functions of the network and their inputs, mirroring that the Go methods
write no Network field, so they leave the network unchanged and are
deterministic by construction. -/
theorem sgd_frame_and_sequencing (n : Network) (data : List (List (List ℝ))) (eta : ℝ)
    (B : ℕ) :
    SGD n data eta B = sgdSnapshot n data eta B ∧
    (SGD n data eta B).map Network.numLayers = (SGD n data eta B).map (fun _ => n.numLayers) ∧
    (SGD n data eta B).map Network.sizes = (SGD n data eta B).map (fun _ => n.sizes) := by
  unfold SGD sgdSnapshot
  by_cases h : n.numLayers < 2
  · simp [h]
  · simp only [if_neg h]
    refine ⟨?_, ?_, ?_⟩
    · exact foldlM_congr_option _ _ (batchStep_eq_snapshot data eta) (sgdPlan data.length B) n
    · exact foldlM_option_preserve _ Network.numLayers _
        (fun m p => (batchStep_preserves data eta m p).1) n
    · exact foldlM_option_preserve _ Network.sizes _
        (fun m p => (batchStep_preserves data eta m p).2) n

/-- C4 (amended): every iteration of the code's SGD loop, at plan entry
(i, bs) with window start i and bs the batchSize value in force for that
iteration (the remainder for a shorter final window), zero-initializes
accumulators, adds into them the backpropagation gradients of exactly the
examples data[i+j] for j < bs, and updates every parameter as
value - gradient*eta/bs via updateNet; the window starts at i rather than
at i*batchSize (the C1 code bug), so the examples averaged are the code's
window, not the claimed batch. -/
theorem sgd_batch_update_mechanism (data : List (List (List ℝ))) (eta : ℝ) (n : Network)
    (i bs : ℕ) :
    sgdBatchStep data eta n (i, bs) =
      ((List.range bs).mapM fun j => backpropQuadCost n (data.getD (i + j) []) eta).map
        fun gs => updateNet n eta bs (gs.foldl accGrads (zeroGrads n)) := by
  rw [batchStep_eq_snapshot]
  rfl

/-! ### Concrete evaluations -/

theorem sigmoid_zero : sigmoid 0 = 1 / 2 := by
  unfold sigmoid
  rw [neg_zero, Real.exp_zero]
  norm_num

theorem sigmoidPrime_zero : sigmoidPrime 0 = 1 / 4 := by
  unfold sigmoidPrime
  rw [sigmoid_zero]
  norm_num

theorem rowMul_one (a w : ℝ) : rowMul [a] [[w]] = [a * w] := by
  have hr : List.range 1 = [0] := rfl
  simp [rowMul, hr]

theorem actAt_one_one (n : Network) (x : List ℝ) (k : ℕ) (a w b : ℝ)
    (ha : actAt n x k = [a]) (hw : n.weights.getD k [] = [[w]])
    (hb : n.biases.getD k [] = [b]) :
    actAt n x (k + 1) = [sigmoid (a * w + b)] := by
  have hstep : actAt n x (k + 1) =
      (vecAdd (rowMul (actAt n x k) (n.weights.getD k [])) (n.biases.getD k [])).map sigmoid :=
    rfl
  rw [hstep, ha, hw, hb, rowMul_one]
  rfl

theorem zAt_one_one (n : Network) (x : List ℝ) (k : ℕ) (a w b : ℝ)
    (ha : actAt n x k = [a]) (hw : n.weights.getD k [] = [[w]])
    (hb : n.biases.getD k [] = [b]) :
    zAt n x k = [a * w + b] := by
  unfold zAt
  rw [ha, hw, hb, rowMul_one]
  rfl

theorem actAt_net2_one : actAt net2 [0] 1 = [1 / 2] := by
  rw [actAt_one_one net2 [0] 0 0 0 0 rfl rfl rfl]
  norm_num [sigmoid_zero]

theorem zAt_net2_zero : zAt net2 [0] 0 = [0] := by
  rw [zAt_one_one net2 [0] 0 0 0 0 rfl rfl rfl]
  norm_num

theorem trace_net2 : forwardTraceN net2 [0] 1 = ([[0], [1 / 2]], [[(0 : ℝ)]]) := by
  rw [forwardTraceN_eq]
  rw [show List.range 2 = [0, 1] from rfl, show List.range 1 = [0] from rfl]
  simp only [List.map_cons, List.map_nil]
  rw [actAt_net2_one, zAt_net2_zero]
  rfl

theorem actAt_net3_one : actAt net3 [0] 1 = [1 / 2] := by
  rw [actAt_one_one net3 [0] 0 0 0 0 rfl rfl rfl]
  norm_num [sigmoid_zero]

theorem actAt_net3_two : actAt net3 [0] 2 = [1 / 2] := by
  rw [actAt_one_one net3 [0] 1 (1 / 2) 0 0 actAt_net3_one rfl rfl]
  norm_num [sigmoid_zero]

theorem zAt_net3_one : zAt net3 [0] 1 = [0] := by
  rw [zAt_one_one net3 [0] 1 (1 / 2) 0 0 actAt_net3_one rfl rfl]
  norm_num

theorem outputDelta_net3 : outputDelta net3 [0] [2] = [-(3 : ℝ) / 8] := by
  unfold outputDelta
  rw [show net3.numLayers - 1 = 2 from rfl, show net3.numLayers - 2 = 1 from rfl,
    actAt_net3_two, zAt_net3_one]
  norm_num [quadraticCost, vecSub, vecHad, sigmoidPrime_zero]

theorem actAt_net4_one : actAt net4 [0] 1 = [1 / 2] := by
  rw [actAt_one_one net4 [0] 0 0 0 0 rfl rfl rfl]
  norm_num [sigmoid_zero]

theorem actAt_net4_two : actAt net4 [0] 2 = [1 / 2] := by
  rw [actAt_one_one net4 [0] 1 (1 / 2) 2 (-1) actAt_net4_one rfl rfl]
  norm_num [sigmoid_zero]

theorem actAt_net4_three : actAt net4 [0] 3 = [1 / 2] := by
  rw [actAt_one_one net4 [0] 2 (1 / 2) 2 (-1) actAt_net4_two rfl rfl]
  norm_num [sigmoid_zero]

theorem zAt_net4_zero : zAt net4 [0] 0 = [0] := by
  rw [zAt_one_one net4 [0] 0 0 0 0 rfl rfl rfl]
  norm_num

theorem zAt_net4_one : zAt net4 [0] 1 = [0] := by
  rw [zAt_one_one net4 [0] 1 (1 / 2) 2 (-1) actAt_net4_one rfl rfl]
  norm_num

theorem zAt_net4_two : zAt net4 [0] 2 = [0] := by
  rw [zAt_one_one net4 [0] 2 (1 / 2) 2 (-1) actAt_net4_two rfl rfl]
  norm_num

theorem trace_net4 : forwardTraceN net4 [0] 3 =
    ([[0], [1 / 2], [1 / 2], [1 / 2]], [[(0 : ℝ)], [0], [0]]) := by
  rw [forwardTraceN_eq]
  rw [show List.range 4 = [0, 1, 2, 3] from rfl, show List.range 3 = [0, 1, 2] from rfl]
  simp only [List.map_cons, List.map_nil]
  rw [actAt_net4_one, actAt_net4_two, actAt_net4_three, zAt_net4_zero, zAt_net4_one,
    zAt_net4_two]
  rfl

theorem outputDelta_net4 : outputDelta net4 [0] [2] = [-(3 : ℝ) / 8] := by
  unfold outputDelta
  rw [show net4.numLayers - 1 = 3 from rfl, show net4.numLayers - 2 = 2 from rfl,
    actAt_net4_three, zAt_net4_two]
  norm_num [quadraticCost, vecSub, vecHad, sigmoidPrime_zero]

theorem rowMulT_one (v w : ℝ) : rowMulT [v] [[w]] = [v * w] := by
  simp [rowMulT]

theorem backprop_net4_nablaB :
    (backpropQuadCost net4 [[0], [2]] 1).map Prod.fst =
      some [[-(3 : ℝ) / 32], [-(3 : ℝ) / 32], [-(3 : ℝ) / 8]] := by
  unfold backpropQuadCost
  rw [if_neg (by simp)]
  simp only []
  rw [show ([[0], [2]] : List (List ℝ)).getD 0 [] = [0] from rfl,
      show ([[0], [2]] : List (List ℝ)).getD 1 [] = [2] from rfl,
      show net4.numLayers - 1 = 3 from rfl, trace_net4,
      show (List.range (3 - 1)).reverse = [1, 0] from rfl]
  norm_num [backwardLoop, writeDelta, rowMulT, vecHad, vecSub, quadraticCost, outerMul,
    sigmoidPrime_zero, net4]

/-- C3 (code bug): on the four-layer network net4 and the example with
input [0] and desired output [2], the code returns
nablaB = [[-3/32], [-3/32], [-3/8]], although the backward recursion of the
claim gives delta = [-3/16] at layer 1: the layer-1 entry was overwritten
with the layer-0 delta because nablaB[i] = delta stores a view of the mat64
backing array that the next iteration's delta.Reset/MulElem reuses.  The
second conjunct evaluates the claim's recursion
(delta x W[2] transposed) hadamard sigmoidPrime(zs[1]) at this input. -/
theorem backprop_aliasing_bug :
    (backpropQuadCost net4 [[0], [2]] 1).map Prod.fst =
      some [[-(3 : ℝ) / 32], [-(3 : ℝ) / 32], [-(3 : ℝ) / 8]] ∧
    vecHad (rowMulT (outputDelta net4 [0] [2]) (net4.weights.getD 2 []))
      ((zAt net4 [0] 1).map sigmoidPrime) = [-(3 : ℝ) / 16] ∧
    [-(3 : ℝ) / 32] ≠ [-(3 : ℝ) / 16] := by
  refine ⟨backprop_net4_nablaB, ?_, by norm_num⟩
  rw [outputDelta_net4, show net4.weights.getD 2 [] = [[(2 : ℝ)]] from rfl, zAt_net4_one,
    rowMulT_one]
  norm_num [vecHad, sigmoidPrime_zero]

/-- C2 counterexample: for the three-layer network net3 and the example
with input [0] and desired output [2], the code's nablaW[L-2] is [[-3/16]],
but transpose(activations[L-3]) x delta = transpose(activations[0]) x delta
is [[0]]: nablaW[L-2] is the transpose of the PREVIOUS layer's activation
(index L-2) times delta, not of activations[L-3]. -/
theorem backprop_output_weight_counterexample :
    ∃ nb nw, backpropQuadCost net3 [[0], [2]] 1 = some (nb, nw) ∧
      nw.getD (net3.numLayers - 2) [] = [[-(3 : ℝ) / 16]] ∧
      outerMul (actAt net3 [0] (net3.numLayers - 3)) (outputDelta net3 [0] [2]) = [[0]] ∧
      nw.getD (net3.numLayers - 2) [] ≠
        outerMul (actAt net3 [0] (net3.numLayers - 3)) (outputDelta net3 [0] [2]) := by
  obtain ⟨nbLow, nwLow, heq, hl1, hl2⟩ := backprop_parts net3 [0] [2] 1 (by decide)
  have hget : (nwLow ++ [outerMul (actAt net3 [0] (net3.numLayers - 2))
      (outputDelta net3 [0] [2])]).getD (net3.numLayers - 2) []
      = outerMul (actAt net3 [0] (net3.numLayers - 2)) (outputDelta net3 [0] [2]) := by
    rw [← hl2]
    exact getD_append_singleton ..
  have hval : outerMul (actAt net3 [0] (net3.numLayers - 2)) (outputDelta net3 [0] [2])
      = [[-(3 : ℝ) / 16]] := by
    rw [show net3.numLayers - 2 = 1 from rfl, actAt_net3_one, outputDelta_net3]
    norm_num [outerMul]
  have hclaim : outerMul (actAt net3 [0] (net3.numLayers - 3)) (outputDelta net3 [0] [2])
      = [[(0 : ℝ)]] := by
    rw [show net3.numLayers - 3 = 0 from rfl, show actAt net3 [0] 0 = [(0 : ℝ)] from rfl,
      outputDelta_net3]
    norm_num [outerMul]
  refine ⟨_, _, heq, ?_, hclaim, ?_⟩
  · rw [hget, hval]
  · rw [hget, hval, hclaim]
    norm_num

theorem backprop_net2_eval (y : ℝ) :
    backpropQuadCost net2 [[0], [y]] 1 = some ([[(1 / 2 - y) * (1 / 4)]], [[[0]]]) := by
  unfold backpropQuadCost
  rw [if_neg (by simp)]
  simp only []
  rw [show ([[0], [y]] : List (List ℝ)).getD 0 [] = [0] from rfl,
      show ([[0], [y]] : List (List ℝ)).getD 1 [] = [y] from rfl,
      show net2.numLayers - 1 = 1 from rfl, trace_net2,
      show (List.range (1 - 1)).reverse = ([] : List ℕ) from rfl]
  norm_num [backwardLoop, quadraticCost, vecSub, vecHad, outerMul, sigmoidPrime_zero, net2]

theorem batchstep_net2_A : sgdBatchStep data3 1 net2 (0, 2) = some net2 := by
  unfold sgdBatchStep
  rw [show (List.range 2) = [0, 1] from rfl]
  simp only [List.foldlM_cons, List.foldlM_nil]
  rw [show data3.getD (0 + 0) [] = [[0], [1]] from rfl,
      show data3.getD (0 + 1) [] = [[0], [0]] from rfl,
      backprop_net2_eval 1, backprop_net2_eval 0]
  norm_num [zeroGrads, accGrads, updateNet, vecAdd, matAdd, net2,
    show List.range 1 = [0] from rfl, show List.replicate 1 (0 : ℝ) = [0] from rfl]

theorem batchstep_net2_B : sgdBatchStep data3 1 net2 (1, 1) = some net2b := by
  unfold sgdBatchStep
  rw [show (List.range 1) = [0] from rfl]
  simp only [List.foldlM_cons, List.foldlM_nil]
  rw [show data3.getD (1 + 0) [] = [[0], [0]] from rfl, backprop_net2_eval 0]
  norm_num [zeroGrads, accGrads, updateNet, vecAdd, matAdd, net2,
    show List.range 1 = [0] from rfl, show List.replicate 1 (0 : ℝ) = [0] from rfl]
  norm_num [Network.mk.injEq, net2b, List.replicate]

theorem batchstep_net2_C : sgdBatchStep data3 1 net2 (2, 1) = some net2c := by
  unfold sgdBatchStep
  rw [show (List.range 1) = [0] from rfl]
  simp only [List.foldlM_cons, List.foldlM_nil]
  rw [show data3.getD (2 + 0) [] = [[0], [2]] from rfl, backprop_net2_eval 2]
  norm_num [zeroGrads, accGrads, updateNet, vecAdd, matAdd, net2,
    show List.range 1 = [0] from rfl, show List.replicate 1 (0 : ℝ) = [0] from rfl]
  norm_num [Network.mk.injEq, net2c, List.replicate]

theorem sgd_net2_eval : SGD net2 data3 1 2 = some net2b := by
  unfold SGD
  rw [if_neg (by decide)]
  have hplan : sgdPlan data3.length 2 = [(0, 2), (1, 1)] := by decide
  rw [hplan]
  simp [List.foldlM_cons, List.foldlM_nil, batchstep_net2_A, batchstep_net2_B,
    -Prod.mk_one_one]

theorem sgdspec_net2_eval : sgdSpecPartition net2 data3 1 2 = some net2c := by
  unfold sgdSpecPartition
  rw [if_neg (by decide)]
  have hplan : ((List.range (sgdIterations data3.length 2)).map fun i =>
      (i * 2, min 2 (data3.length - i * 2))) = [(0, 2), (2, 1)] := by decide
  rw [hplan]
  simp [List.foldlM_cons, List.foldlM_nil, batchstep_net2_A, batchstep_net2_C,
    -Prod.mk_one_one]

/-- C4 counterexample: on the [1, 1] network net2, the training set data3
(three examples) with eta = 1 and batch size 2, the code's SGD ends with
bias -1/8 (its final window re-processes example 1), while the spec's
partition of consecutive batches ends with bias 3/8 (its final batch is
example 2): the update of the final batch is not computed from the
gradients of the examples in that batch. -/
theorem sgd_vs_spec_partition :
    SGD net2 data3 1 2 = some net2b ∧ sgdSpecPartition net2 data3 1 2 = some net2c ∧
    SGD net2 data3 1 2 ≠ sgdSpecPartition net2 data3 1 2 := by
  refine ⟨sgd_net2_eval, sgdspec_net2_eval, ?_⟩
  rw [sgd_net2_eval, sgdspec_net2_eval]
  simp only [ne_eq, Option.some.injEq]
  intro h
  have hb := congrArg Network.biases h
  simp only [net2b, net2c] at hb
  norm_num at hb

end NeuralNet
